import Mathlib

/-!
Verification of the nom-peg meta-grammar parser (src/src/parser.rs).

The Rust code is a hand-written recursive-descent parser over a `syn`
`ParseStream`.  We embed it shallowly:

* The token stream (produced by the external lexer, out of scope per the
  spec) is a `List Tok`.  Compound punctuation (`::`, `=>`) is atomic, which
  matches `syn`'s spacing-aware `peek`/`parse` behaviour (`=` never matches
  the `=` of `=>`).  Delimited groups (parentheses, braces) are single
  tokens holding their content, as in the proc-macro token-tree model.
* A `syn` `ParseStream` is a mutable cursor plus a deferred
  "unexpected token" cell: tokens inside a delimited group that are left
  unconsumed do not fail immediately; the failure surfaces when the
  top-level `parse` finishes.  We model the cursor as the `List Tok`
  threaded through every parser and the unexpected-cell as a `Bool` flag
  (`b`) that is set when a parenthesised group is exited with leftover
  content and checked at the very end by `parseGrammar`.  A `fork` is an
  independent cursor copy with a fresh cell, so speculation is modelled by
  calling the parser and discarding the returned state and flag.
* `syn` errors are values; parsing functions return
  `Except PError α × List Tok × Bool`.  The cursor component reflects that
  in Rust a failed call leaves all tokens it successfully consumed
  consumed (there is no rollback without `fork`).
* The two opaque fragment kinds (`syn::Type`, `syn::Block`) are external
  collaborators per the spec; see `Tok.tyFrag` / `Tok.brace` below.
-/

/-- Error value carried by a failed parse (models `syn::Error`; we keep the
message, positions are not needed for the claims). -/
structure PError where
  msg : String
deriving Repr, DecidableEq

/-- One token of the input stream.  `ident`, `litStr` and the punctuation
constructors come from the external lexer; `paren`/`brace` are delimited
proc-macro groups holding their content.

`tyFrag` — Modelled from the spec: the grammar's `TYPE` position is an
opaque fragment handed to the external host-language type parser
("parse exactly one fragment starting at the current position … and leave
the cursor immediately past it"); the repository's own sources do not
contain that parser (`syn::Type`), so a type fragment is one opaque token.
Likewise the content of a `brace` group (a `syn::Block` action) is kept
opaque and consumed as one token. -/
inductive Tok where
  | ident (s : String)
  | litStr (s : String)
  | amp | bang | question | star | plus
  | lt | gt | eq | colon | pipe
  | colonColon | fatArrow
  | paren (ts : List Tok)
  | brace (ts : List Tok)
  | tyFrag (s : String)
deriving Repr

/-- The parse-tree produced by the parser; a constructor-for-constructor
translation of the Rust `enum ParseTree`.  `Ident`, `Type` and `Block`
payloads become `String`, `String` (the opaque type fragment) and
`List Tok` (the opaque block content). -/
inductive ParseTree where
  | definitionList (defs : List ParseTree)
  | parserDefinition (name : String) (ty : Option String) (body : ParseTree)
  | capture (inner : ParseTree) (binding : Option String)
  | nonTerminal (name : String)
  | call (name : String)
  | sequence (elems : List ParseTree) (action : Option (List Tok))
  | empty
  | terminal (s : String)
  | choice (alts : List ParseTree)
  | many0 (inner : ParseTree)
  | many1 (inner : ParseTree)
  | optional (inner : ParseTree)
  | peek (inner : ParseTree)
  | not (inner : ParseTree)
deriving Repr

@[simp] theorem except_isOk_ok {ε α : Type} (a : α) :
    (Except.ok a : Except ε α).isOk = true := rfl

@[simp] theorem except_isOk_error {ε α : Type} (e : ε) :
    (Except.error e : Except ε α).isOk = false := rfl

/-- The two prefix operators (Rust `enum Prefix`). -/
inductive PrefixOp where
  | peek
  | not
deriving Repr, DecidableEq

/-- The three postfix operators (Rust `enum Postfix`). -/
inductive PostfixOp where
  | optional
  | many0
  | many1
deriving Repr, DecidableEq

mutual
/-- Size of one token; groups count their content (used only as the
termination measure of the mutually recursive parsers). -/
def tokSize : Tok → Nat
  | Tok.paren ts => 1 + toksSize ts
  | Tok.brace ts => 1 + toksSize ts
  | _ => 1

/-- Size of a token stream. -/
def toksSize : List Tok → Nat
  | [] => 0
  | t :: ts => tokSize t + toksSize ts
end

@[simp] theorem toksSize_nil : toksSize [] = 0 := rfl

@[simp] theorem toksSize_cons (t : Tok) (ts : List Tok) :
    toksSize (t :: ts) = tokSize t + toksSize ts := by
  rw [toksSize]

theorem tokSize_pos (t : Tok) : 0 < tokSize t := by
  cases t <;> simp [tokSize]

/-- Rust `fn parse_prefix`: consume one `&` or `!` if present, else nothing. -/
def parse_prefix_op : List Tok → Option PrefixOp × List Tok
  | Tok.amp :: rest => (some PrefixOp.peek, rest)
  | Tok.bang :: rest => (some PrefixOp.not, rest)
  | ts => (none, ts)

/-- Rust `fn parse_postfix`: consume one `?`, `*` or `+` if present, else nothing. -/
def parse_postfix_op : List Tok → Option PostfixOp × List Tok
  | Tok.question :: rest => (some PostfixOp.optional, rest)
  | Tok.star :: rest => (some PostfixOp.many0, rest)
  | Tok.plus :: rest => (some PostfixOp.many1, rest)
  | ts => (none, ts)

theorem parse_prefix_op_size (ts : List Tok) :
    toksSize (parse_prefix_op ts).2 ≤ toksSize ts := by
  unfold parse_prefix_op
  split <;> simp [tokSize]

theorem parse_postfix_op_size (ts : List Tok) :
    toksSize (parse_postfix_op ts).2 ≤ toksSize ts := by
  unfold parse_postfix_op
  split <;> simp [tokSize]

/-- The postfix `and_then` block at the end of the Rust `parse_element`:
wrap the atom according to the postfix operator found (if any). -/
def postWrap : Option PostfixOp → ParseTree → ParseTree
  | some PostfixOp.optional, t => ParseTree.optional t
  | some PostfixOp.many0, t => ParseTree.many0 t
  | some PostfixOp.many1, t => ParseTree.many1 t
  | none, t => t

/-- The prefix `and_then` block at the end of the Rust `parse_element`:
wrap the (possibly postfix-wrapped) atom in `Peek`/`Not` (if any). -/
def preWrap : Option PrefixOp → ParseTree → ParseTree
  | some PrefixOp.peek, t => ParseTree.peek t
  | some PrefixOp.not, t => ParseTree.not t
  | none, t => t

/-- The tail of `parse_element`'s `Ok` flow: consume an optional postfix
operator, wrap it innermost, wrap the prefix operator found at the start
outermost. -/
def finishElement (pre : Option PrefixOp) (t : ParseTree) (ts : List Tok)
    (b : Bool) : Except PError ParseTree × List Tok × Bool :=
  (Except.ok (preWrap pre (postWrap (parse_postfix_op ts).1 t)),
   (parse_postfix_op ts).2, b)

mutual
/-- Rust `fn parse_definition`: `IDENT (':' TYPE)? '=' expression`.  A failed
token parse returns the error with the cursor where `syn` leaves it. -/
def parse_definition (ts : List Tok) (b : Bool) :
    Except PError ParseTree × List Tok × Bool :=
  match ts with
  | Tok.ident nm :: r1 =>
    (match r1 with
     | Tok.colon :: r2 =>
        (match r2 with
         | Tok.tyFrag ty :: r3 =>
            (match r3 with
             | Tok.eq :: r4 =>
                (match parse_expression r4 b with
                 | (Except.ok body, ts4, b4) =>
                    (Except.ok (ParseTree.parserDefinition nm (some ty) body), ts4, b4)
                 | (Except.error e, ts4, b4) => (Except.error e, ts4, b4))
             | _ => (Except.error (PError.mk "expected equals"), r3, b))
         | _ => (Except.error (PError.mk "expected type"), r2, b))
     | Tok.eq :: r4 =>
        (match parse_expression r4 b with
         | (Except.ok body, ts4, b4) =>
            (Except.ok (ParseTree.parserDefinition nm none body), ts4, b4)
         | (Except.error e, ts4, b4) => (Except.error e, ts4, b4))
     | _ => (Except.error (PError.mk "expected equals"), r1, b))
  | _ => (Except.error (PError.mk "expected identifier"), ts, b)
termination_by 8 * toksSize ts + 0
decreasing_by
  all_goals simp_wf
  all_goals simp [tokSize]
  all_goals omega

/-- The dispatch of `fn parse_element` after the prefix step, on the
post-prefix cursor.  The two soft-failure branches (identifier recognised
as a new definition, unknown token) still run `parse_postfix` before
returning, exactly as the Rust code does; all other failures early-return
through `?` without the postfix step. -/
def parse_element_core (pre : Option PrefixOp) (ts : List Tok) (b : Bool) :
    Except PError ParseTree × List Tok × Bool :=
  match ts with
  | Tok.ident i :: rest =>
      if (parse_definition (Tok.ident i :: rest) b).1.isOk then
        (Except.error (PError.mk "Reached start of new definition."),
         (parse_postfix_op (Tok.ident i :: rest)).2, b)
      else
        finishElement pre (ParseTree.nonTerminal i) rest b
  | Tok.colonColon :: rest =>
      (match rest with
       | Tok.ident i :: rest2 => finishElement pre (ParseTree.call i) rest2 b
       | _ => (Except.error (PError.mk "expected identifier"), rest, b))
  | Tok.litStr str :: rest => finishElement pre (ParseTree.terminal str) rest b
  | Tok.paren content :: rest =>
      (match parse_expression content b with
       | (Except.ok t, leftover, b2) =>
          finishElement pre t rest (b2 || !leftover.isEmpty)
       | (Except.error e, leftover, b2) =>
          (Except.error e, rest, b2 || !leftover.isEmpty))
  | Tok.lt :: Tok.ident i :: Tok.colon :: rest2 =>
      (match parse_element rest2 b with
       | (Except.ok inner, ts2, b2) =>
          (match ts2 with
           | Tok.gt :: rest3 =>
              finishElement pre (ParseTree.capture inner (some i)) rest3 b2
           | _ => (Except.error (PError.mk "expected greater"), ts2, b2))
       | (Except.error e, ts2, b2) => (Except.error e, ts2, b2))
  | Tok.lt :: rest =>
      (match parse_element rest b with
       | (Except.ok inner, ts2, b2) =>
          (match ts2 with
           | Tok.gt :: rest3 =>
              finishElement pre (ParseTree.capture inner none) rest3 b2
           | _ => (Except.error (PError.mk "expected greater"), ts2, b2))
       | (Except.error e, ts2, b2) => (Except.error e, ts2, b2))
  | _ =>
      (Except.error (PError.mk "expected element"), (parse_postfix_op ts).2, b)
termination_by 8 * toksSize ts + 1
decreasing_by
  all_goals simp_wf
  all_goals simp [tokSize]
  all_goals omega

/-- Rust `fn parse_element`: prefix step, dispatch, postfix/prefix wrapping. -/
def parse_element (ts : List Tok) (b : Bool) :
    Except PError ParseTree × List Tok × Bool :=
  parse_element_core (parse_prefix_op ts).1 (parse_prefix_op ts).2 b
termination_by 8 * toksSize ts + 2
decreasing_by
  all_goals simp_wf
  all_goals have := parse_prefix_op_size ts
  all_goals omega

/-- The element loop of `fn parse_sequence`
(`while !input.is_empty() { match parse_element(input) { Ok(e) => push, Err(_) => break } }`).
The error of a failed element is discarded but the cursor it advanced
persists.  The size guard mirrors the fact that a successful
`parse_element` always consumes input (proved below as
`parse_element_progress`); it never fires. -/
def seq_collect (acc : List ParseTree) (ts : List Tok) (b : Bool) :
    List ParseTree × List Tok × Bool :=
  if ts.isEmpty then (acc, ts, b)
  else
    match parse_element ts b with
    | (Except.ok e, ts2, b2) =>
        if _h : toksSize ts2 < toksSize ts then seq_collect (acc ++ [e]) ts2 b2
        else (acc ++ [e], ts2, b2)
    | (Except.error _, ts2, b2) => (acc, ts2, b2)
termination_by 8 * toksSize ts + 3
decreasing_by
  all_goals simp_wf
  all_goals omega

/-- Rust `fn parse_sequence`: element loop, the `len == 0` hard failure, then the
optional `'=>' BLOCK` action. -/
def parse_sequence (ts : List Tok) (b : Bool) :
    Except PError ParseTree × List Tok × Bool :=
  match seq_collect [] ts b with
  | (elems, ts1, b1) =>
      if elems.isEmpty then
        (Except.error (PError.mk "Need at least one element in a sequence"), ts1, b1)
      else
        match ts1 with
        | Tok.fatArrow :: rest =>
            (match rest with
             | Tok.brace code :: rest2 =>
                (Except.ok (ParseTree.sequence elems (some code)), rest2, b1)
             | _ => (Except.error (PError.mk "expected block"), rest, b1))
        | _ => (Except.ok (ParseTree.sequence elems none), ts1, b1)
termination_by 8 * toksSize ts + 4
decreasing_by
  all_goals simp_wf

/-- The alternation loop of `fn parse_expression`
(`while !input.is_empty() && input.peek(Token![|]) { … push(parse_sequence(input)?) }`).
The guard mirrors `parse_sequence` consuming input on success; it never
fires. -/
def expr_collect (acc : List ParseTree) (ts : List Tok) (b : Bool) :
    Except PError (List ParseTree) × List Tok × Bool :=
  match ts with
  | Tok.pipe :: rest =>
      (match parse_sequence rest b with
       | (Except.ok t, ts2, b2) =>
          if _h : toksSize ts2 < toksSize (Tok.pipe :: rest) then
            expr_collect (acc ++ [t]) ts2 b2
          else (Except.ok (acc ++ [t]), ts2, b2)
       | (Except.error e, ts2, b2) => (Except.error e, ts2, b2))
  | _ => (Except.ok acc, ts, b)
termination_by 8 * toksSize ts + 5
decreasing_by
  all_goals simp_wf
  all_goals simp_all [tokSize]
  all_goals omega

/-- Rust `fn parse_expression`: one sequence, the `|` loop, then the collapse
(`0 => Empty, 1 => the sequence, _ => Choice`).  The size guard mirrors
`parse_sequence` never growing the stream (proved below as `ng_sequence`);
it never fires. -/
def parse_expression (ts : List Tok) (b : Bool) :
    Except PError ParseTree × List Tok × Bool :=
  match parse_sequence ts b with
  | (Except.error e, ts1, b1) => (Except.error e, ts1, b1)
  | (Except.ok t, ts1, b1) =>
      match (if _h : toksSize ts1 ≤ toksSize ts then expr_collect [t] ts1 b1
             else (Except.ok [t], ts1, b1)) with
      | (Except.error e, ts2, b2) => (Except.error e, ts2, b2)
      | (Except.ok l, ts2, b2) =>
          match l with
          | [] => (Except.ok ParseTree.empty, ts2, b2)
          | [x] => (Except.ok x, ts2, b2)
          | _ => (Except.ok (ParseTree.choice l), ts2, b2)
termination_by 8 * toksSize ts + 6
decreasing_by
  all_goals simp_wf
  all_goals omega
end

/-- The `while !input.is_empty() { definitions.push(parse_definition(input)?); }`
loop of `impl Parse for ParseTree`.  Every failure here is hard and
propagates.  The size guard mirrors `parse_definition` consuming input on
success; it never fires. -/
def defs_collect (acc : List ParseTree) (ts : List Tok) (b : Bool) :
    Except PError (List ParseTree) × List Tok × Bool :=
  if ts.isEmpty then (Except.ok acc, ts, b)
  else
    match parse_definition ts b with
    | (Except.ok d, ts2, b2) =>
        if _h : toksSize ts2 < toksSize ts then defs_collect (acc ++ [d]) ts2 b2
        else (Except.ok (acc ++ [d]), ts2, b2)
    | (Except.error e, ts2, b2) => (Except.error e, ts2, b2)
termination_by 8 * toksSize ts
decreasing_by
  all_goals simp_wf
  all_goals omega

/-- Rust `impl Parse for ParseTree`, `fn parse`: one mandatory definition, then
the definition loop, wrapped in `DefinitionList`. -/
def ParseTree.parse (ts : List Tok) (b : Bool) :
    Except PError ParseTree × List Tok × Bool :=
  match parse_definition ts b with
  | (Except.error e, ts1, b1) => (Except.error e, ts1, b1)
  | (Except.ok d, ts1, b1) =>
      match defs_collect [d] ts1 b1 with
      | (Except.ok l, ts2, b2) => (Except.ok (ParseTree.definitionList l), ts2, b2)
      | (Except.error e, ts2, b2) => (Except.error e, ts2, b2)

/-- The whole front end as `syn::parse2` runs it: parse a `ParseTree`, then
fail if tokens remain or if the deferred unexpected-token cell was set by a
group that was exited with unconsumed content. -/
def parseGrammar (ts : List Tok) : Except PError ParseTree :=
  match ParseTree.parse ts false with
  | (Except.ok t, ts1, b1) =>
      if ts1.isEmpty && !b1 then Except.ok t
      else Except.error (PError.mk "unexpected token")
  | (Except.error e, _, _) => Except.error e

mutual
/-- The structural invariants of §3 of the spec, as one recursive boolean
check: every `sequence` is non-empty, every `choice` has at least two
alternatives, every `definitionList` is non-empty, and `empty` never
occurs. -/
def invB : ParseTree → Bool
  | ParseTree.definitionList defs => !defs.isEmpty && invListB defs
  | ParseTree.parserDefinition _ _ body => invB body
  | ParseTree.capture inner _ => invB inner
  | ParseTree.nonTerminal _ => true
  | ParseTree.call _ => true
  | ParseTree.sequence elems _ => !elems.isEmpty && invListB elems
  | ParseTree.empty => false
  | ParseTree.terminal _ => true
  | ParseTree.choice alts => decide (2 ≤ alts.length) && invListB alts
  | ParseTree.many0 t => invB t
  | ParseTree.many1 t => invB t
  | ParseTree.optional t => invB t
  | ParseTree.peek t => invB t
  | ParseTree.not t => invB t

/-- Conjunction of `invB` over every tree of a list. -/
def invListB : List ParseTree → Bool
  | [] => true
  | t :: rest => invB t && invListB rest
end

/-- Spec-side definition, for refuting C1 as stated.  Modelled from the
spec's words: the claimed speculative target is only the rule header
`IDENT (':' TYPE)? '='`, not a whole definition. -/
def specHeaderOnly : List Tok → Bool
  | Tok.ident _ :: Tok.colon :: Tok.tyFrag _ :: Tok.eq :: _ => true
  | Tok.ident _ :: Tok.eq :: _ => true
  | _ => false

/-- Is this token one of the three postfix operator tokens `? * +`? -/
def isPostfixTok : Tok → Bool
  | Tok.question => true
  | Tok.star => true
  | Tok.plus => true
  | _ => false

/-- The tree constructor a postfix operator token wraps with (identity on
non-postfix tokens); used to state claims about operator composition. -/
def postWrapTok (t : Tok) (p : ParseTree) : ParseTree :=
  match t with
  | Tok.question => ParseTree.optional p
  | Tok.star => ParseTree.many0 p
  | Tok.plus => ParseTree.many1 p
  | _ => p

theorem finishElement_size (pre : Option PrefixOp) (t : ParseTree)
    (ts : List Tok) (b : Bool) :
    toksSize (finishElement pre t ts b).2.1 ≤ toksSize ts := by
  unfold finishElement
  exact parse_postfix_op_size ts

/-- No parser ever grows the token stream: the returned cursor is a
suffix-size-bounded state.  Proved for all seven mutually recursive
parsers at once by strong induction on the stream size; this is what makes
the size guards in the loop definitions above semantically transparent
(see the `_eq` lemmas below). -/
theorem ng_all (N : Nat) : ∀ ts : List Tok, toksSize ts ≤ N → ∀ b : Bool,
    (toksSize (parse_definition ts b).2.1 ≤ toksSize ts) ∧
    (∀ pre, toksSize (parse_element_core pre ts b).2.1 ≤ toksSize ts) ∧
    (toksSize (parse_element ts b).2.1 ≤ toksSize ts) ∧
    (∀ acc, toksSize (seq_collect acc ts b).2.1 ≤ toksSize ts) ∧
    (toksSize (parse_sequence ts b).2.1 ≤ toksSize ts) ∧
    (∀ acc, toksSize (expr_collect acc ts b).2.1 ≤ toksSize ts) ∧
    (toksSize (parse_expression ts b).2.1 ≤ toksSize ts) := by
  induction N using Nat.strong_induction_on with
  | _ N IH =>
  have Adef : ∀ us, toksSize us ≤ N → ∀ b : Bool,
      toksSize (parse_definition us b).2.1 ≤ toksSize us := by
    intro us hus b
    unfold parse_definition
    split
    case _ nm r1 =>
      split
      case _ r2 =>
        split
        case _ ty r3 =>
          split
          case _ r4 =>
            have hr4 : toksSize r4 < N := by
              simp [tokSize] at hus; omega
            have hexpr := (IH (toksSize r4) hr4 r4 le_rfl b).2.2.2.2.2.2
            split
            case _ body ts4 b4 heq =>
              rw [heq] at hexpr
              simp [tokSize] at hexpr ⊢
              omega
            case _ e ts4 b4 heq =>
              rw [heq] at hexpr
              simp [tokSize] at hexpr ⊢
              omega
          case _ => simp [tokSize]; omega
        case _ => simp [tokSize]; omega
      case _ r4 =>
        have hr4 : toksSize r4 < N := by
          simp [tokSize] at hus; omega
        have hexpr := (IH (toksSize r4) hr4 r4 le_rfl b).2.2.2.2.2.2
        split
        case _ body ts4 b4 heq =>
          rw [heq] at hexpr
          simp [tokSize] at hexpr ⊢
          omega
        case _ e ts4 b4 heq =>
          rw [heq] at hexpr
          simp [tokSize] at hexpr ⊢
          omega
      case _ => simp [tokSize]
    case _ => simp
  have Acore : ∀ us, toksSize us ≤ N → ∀ (b : Bool) (pre : Option PrefixOp),
      toksSize (parse_element_core pre us b).2.1 ≤ toksSize us := by
    intro us hus b pre
    unfold parse_element_core
    split
    case _ i rest =>
      split
      · have := parse_postfix_op_size (Tok.ident i :: rest)
        simpa using this
      · have := finishElement_size pre (ParseTree.nonTerminal i) rest b
        simp [tokSize]
        omega
    case _ rest =>
      split
      case _ i rest2 =>
        have := finishElement_size pre (ParseTree.call i) rest2 b
        simp [tokSize] at this ⊢
        omega
      case _ => simp [tokSize]
    case _ str rest =>
      have := finishElement_size pre (ParseTree.terminal str) rest b
      simp [tokSize]
      omega
    case _ content rest =>
      split
      case _ t leftover b2 heq =>
        have := finishElement_size pre t rest (b2 || !leftover.isEmpty)
        simp [tokSize]
        omega
      case _ e leftover b2 heq =>
        simp [tokSize]
    case _ i rest2 =>
      have hr2 : toksSize rest2 < N := by
        simp [tokSize] at hus; omega
      have hinner := (IH (toksSize rest2) hr2 rest2 le_rfl b).2.2.1
      split
      case _ inner ts2 b2 heq =>
        rw [heq] at hinner
        split
        case _ rest3 =>
          have := finishElement_size pre (ParseTree.capture inner (some i)) rest3 b2
          simp [tokSize] at hinner ⊢
          omega
        case _ =>
          simp [tokSize] at hinner ⊢
          omega
      case _ e ts2 b2 heq =>
        rw [heq] at hinner
        simp [tokSize] at hinner ⊢
        omega
    case _ rest hno =>
      have hr : toksSize rest < N := by
        simp [tokSize] at hus; omega
      have hinner := (IH (toksSize rest) hr rest le_rfl b).2.2.1
      split
      case _ inner ts2 b2 heq =>
        rw [heq] at hinner
        split
        case _ rest3 =>
          have := finishElement_size pre (ParseTree.capture inner none) rest3 b2
          simp [tokSize] at hinner ⊢
          omega
        case _ =>
          simp [tokSize] at hinner ⊢
          omega
      case _ e ts2 b2 heq =>
        rw [heq] at hinner
        simp [tokSize] at hinner ⊢
        omega
    case _ =>
      exact parse_postfix_op_size _
  have Aelem : ∀ us, toksSize us ≤ N → ∀ b : Bool,
      toksSize (parse_element us b).2.1 ≤ toksSize us := by
    intro us hus b
    unfold parse_element
    have h1 := parse_prefix_op_size us
    have h2 := Acore (parse_prefix_op us).2 (le_trans h1 hus) b (parse_prefix_op us).1
    omega
  have Aseqc : ∀ us, toksSize us ≤ N → ∀ (b : Bool) (acc : List ParseTree),
      toksSize (seq_collect acc us b).2.1 ≤ toksSize us := by
    intro us hus b acc
    unfold seq_collect
    split
    · simp
    · split
      case _ e ts2 b2 heq =>
        have helem := Aelem us hus b
        rw [heq] at helem
        simp at helem
        split
        case _ h =>
          have hrec := (IH (toksSize ts2) (by omega) ts2 le_rfl b2).2.2.2.1 (acc ++ [e])
          omega
        case _ => simpa
      case _ e ts2 b2 heq =>
        have helem := Aelem us hus b
        rw [heq] at helem
        simpa using helem
  have Aseq : ∀ us, toksSize us ≤ N → ∀ b : Bool,
      toksSize (parse_sequence us b).2.1 ≤ toksSize us := by
    intro us hus b
    unfold parse_sequence
    have hseqc := Aseqc us hus b []
    split
    · simpa using hseqc
    · split
      case _ rest heq =>
        rw [heq] at hseqc
        split
        case _ code rest2 =>
          simp [tokSize] at hseqc ⊢; omega
        case _ =>
          simp [tokSize] at hseqc ⊢; omega
      case _ => simpa using hseqc
  have Aexprc : ∀ us, toksSize us ≤ N → ∀ (b : Bool) (acc : List ParseTree),
      toksSize (expr_collect acc us b).2.1 ≤ toksSize us := by
    intro us hus b acc
    unfold expr_collect
    split
    case _ rest =>
      have hrest : toksSize rest < N := by
        simp [tokSize] at hus; omega
      split
      case _ t ts2 b2 heq =>
        have hseq := (IH (toksSize rest) hrest rest le_rfl b).2.2.2.2.1
        rw [heq] at hseq
        simp at hseq
        split
        case _ h =>
          simp [tokSize] at h
          have hrec := (IH (toksSize ts2) (by omega) ts2 le_rfl b2).2.2.2.2.2.1 (acc ++ [t])
          simp [tokSize]
          omega
        case _ =>
          simp [tokSize]
          omega
      case _ e ts2 b2 heq =>
        have hseq := (IH (toksSize rest) hrest rest le_rfl b).2.2.2.2.1
        rw [heq] at hseq
        simp [tokSize] at hseq ⊢
        omega
    case _ => simp
  have Aexpr : ∀ us, toksSize us ≤ N → ∀ b : Bool,
      toksSize (parse_expression us b).2.1 ≤ toksSize us := by
    intro us hus b
    unfold parse_expression
    split
    case _ e ts1 b1 heq =>
      have hseq := Aseq us hus b
      rw [heq] at hseq
      simpa using hseq
    case _ t ts1 b1 heq =>
      have hseq := Aseq us hus b
      rw [heq] at hseq
      simp at hseq
      rw [dif_pos hseq]
      have hexprc := Aexprc ts1 (le_trans hseq hus) b1 [t]
      split
      case _ e ts2 b2 heq2 =>
        rw [heq2] at hexprc
        simp at hexprc ⊢
        omega
      case _ l ts2 b2 heq2 =>
        rw [heq2] at hexprc
        simp at hexprc
        split <;> simp <;> omega
  intro ts hts b
  exact ⟨Adef ts hts b, fun pre => Acore ts hts b pre, Aelem ts hts b,
    fun acc => Aseqc ts hts b acc, Aseq ts hts b, fun acc => Aexprc ts hts b acc,
    Aexpr ts hts b⟩

theorem ng_definition (ts : List Tok) (b : Bool) :
    toksSize (parse_definition ts b).2.1 ≤ toksSize ts :=
  (ng_all (toksSize ts) ts le_rfl b).1

theorem ng_element_core (pre : Option PrefixOp) (ts : List Tok) (b : Bool) :
    toksSize (parse_element_core pre ts b).2.1 ≤ toksSize ts :=
  (ng_all (toksSize ts) ts le_rfl b).2.1 pre

theorem ng_element (ts : List Tok) (b : Bool) :
    toksSize (parse_element ts b).2.1 ≤ toksSize ts :=
  (ng_all (toksSize ts) ts le_rfl b).2.2.1

theorem ng_seq_collect (acc : List ParseTree) (ts : List Tok) (b : Bool) :
    toksSize (seq_collect acc ts b).2.1 ≤ toksSize ts :=
  (ng_all (toksSize ts) ts le_rfl b).2.2.2.1 acc

theorem ng_sequence (ts : List Tok) (b : Bool) :
    toksSize (parse_sequence ts b).2.1 ≤ toksSize ts :=
  (ng_all (toksSize ts) ts le_rfl b).2.2.2.2.1

theorem ng_expr_collect (acc : List ParseTree) (ts : List Tok) (b : Bool) :
    toksSize (expr_collect acc ts b).2.1 ≤ toksSize ts :=
  (ng_all (toksSize ts) ts le_rfl b).2.2.2.2.2.1 acc

theorem ng_expression (ts : List Tok) (b : Bool) :
    toksSize (parse_expression ts b).2.1 ≤ toksSize ts :=
  (ng_all (toksSize ts) ts le_rfl b).2.2.2.2.2.2

theorem parse_element_core_progress (pre : Option PrefixOp) (ts : List Tok)
    (b : Bool) (h : (parse_element_core pre ts b).1.isOk = true) :
    toksSize (parse_element_core pre ts b).2.1 < toksSize ts := by
  revert h
  unfold parse_element_core
  split
  case _ i rest =>
    split
    · intro h; simp at h
    · intro _
      have := parse_postfix_op_size rest
      simp [finishElement, tokSize]
      omega
  case _ rest =>
    split
    case _ i rest2 =>
      intro _
      have := parse_postfix_op_size rest2
      simp [finishElement, tokSize]
      omega
    case _ => intro h; simp at h
  case _ str rest =>
    intro _
    have := parse_postfix_op_size rest
    simp [finishElement, tokSize]
    omega
  case _ content rest =>
    split
    case _ t leftover b2 heq =>
      intro _
      have := parse_postfix_op_size rest
      simp [finishElement, tokSize]
      omega
    case _ e leftover b2 heq => intro h; simp at h
  case _ i rest2 =>
    split
    case _ inner ts2 b2 heq =>
      have hng := ng_element rest2 b
      rw [heq] at hng
      simp at hng
      split
      case _ rest3 =>
        intro _
        have := parse_postfix_op_size rest3
        simp [finishElement, tokSize] at hng ⊢
        omega
      case _ => intro h; simp at h
    case _ e ts2 b2 heq => intro h; simp at h
  case _ rest hno =>
    split
    case _ inner ts2 b2 heq =>
      have hng := ng_element rest b
      rw [heq] at hng
      simp at hng
      split
      case _ rest3 =>
        intro _
        have := parse_postfix_op_size rest3
        simp [finishElement, tokSize] at hng ⊢
        omega
      case _ => intro h; simp at h
    case _ e ts2 b2 heq => intro h; simp at h
  case _ =>
    intro h; simp at h

theorem parse_element_progress (ts : List Tok) (b : Bool)
    (h : (parse_element ts b).1.isOk = true) :
    toksSize (parse_element ts b).2.1 < toksSize ts := by
  revert h
  unfold parse_element parse_prefix_op
  split
  case _ rest =>
    intro h
    have := parse_element_core_progress (some PrefixOp.peek) rest b h
    simp [tokSize]
    omega
  case _ rest =>
    intro h
    have := parse_element_core_progress (some PrefixOp.not) rest b h
    simp [tokSize]
    omega
  case _ =>
    intro h
    exact parse_element_core_progress none ts b h

theorem seq_collect_progress (acc : List ParseTree) (ts : List Tok) (b : Bool)
    (h : (seq_collect acc ts b).1 ≠ acc) :
    toksSize (seq_collect acc ts b).2.1 < toksSize ts := by
  revert h
  rw [seq_collect.eq_def]
  split
  · intro h; simp at h
  · split
    case _ e ts2 b2 heq =>
      intro _
      have hp := parse_element_progress ts b (by rw [heq]; rfl)
      rw [heq] at hp
      simp at hp
      rw [dif_pos hp]
      have hng := ng_seq_collect (acc ++ [e]) ts2 b2
      omega
    case _ e ts2 b2 heq =>
      intro h
      simp at h

theorem parse_sequence_progress (ts : List Tok) (b : Bool)
    (h : (parse_sequence ts b).1.isOk = true) :
    toksSize (parse_sequence ts b).2.1 < toksSize ts := by
  revert h
  unfold parse_sequence
  split
  case _ hne => intro h; simp at h
  case _ hne =>
    have hsp : toksSize (seq_collect [] ts b).2.1 < toksSize ts := by
      apply seq_collect_progress
      intro hcon
      rw [hcon] at hne
      simp at hne
    split
    case _ rest heq =>
      rw [heq] at hsp
      split
      case _ code rest2 =>
        intro _
        simp [tokSize] at hsp ⊢
        omega
      case _ => intro h; simp at h
    case _ => intro _; simpa using hsp

theorem parse_definition_progress (ts : List Tok) (b : Bool)
    (h : (parse_definition ts b).1.isOk = true) :
    toksSize (parse_definition ts b).2.1 < toksSize ts := by
  revert h
  unfold parse_definition
  split
  case _ nm r1 =>
    split
    case _ r2 =>
      split
      case _ ty r3 =>
        split
        case _ r4 =>
          have hng := ng_expression r4 b
          split
          case _ body ts4 b4 heq =>
            intro _
            rw [heq] at hng
            simp [tokSize] at hng ⊢
            omega
          case _ e ts4 b4 heq => intro h; simp at h
        case _ => intro h; simp at h
      case _ => intro h; simp at h
    case _ r4 =>
      have hng := ng_expression r4 b
      split
      case _ body ts4 b4 heq =>
        intro _
        rw [heq] at hng
        simp [tokSize] at hng ⊢
        omega
      case _ e ts4 b4 heq => intro h; simp at h
    case _ => intro h; simp at h
  case _ => intro h; simp at h

/-- The size guard inside `seq_collect` is transparent: the function
satisfies the guard-free unfolding equation that is the literal translation
of the Rust loop body. -/
theorem seq_collect_eq (acc : List ParseTree) (ts : List Tok) (b : Bool) :
    seq_collect acc ts b =
      if ts.isEmpty then (acc, ts, b)
      else
        match parse_element ts b with
        | (Except.ok e, ts2, b2) => seq_collect (acc ++ [e]) ts2 b2
        | (Except.error _, ts2, b2) => (acc, ts2, b2) := by
  rw [seq_collect.eq_def]
  split
  · rfl
  · split
    case _ e ts2 b2 heq =>
      have hp := parse_element_progress ts b (by rw [heq]; rfl)
      rw [heq] at hp
      simp at hp
      rw [dif_pos hp]
    case _ e ts2 b2 heq => rfl

/-- The size guard inside `expr_collect` is transparent. -/
theorem expr_collect_eq (acc : List ParseTree) (ts : List Tok) (b : Bool) :
    expr_collect acc ts b =
      match ts with
      | Tok.pipe :: rest =>
          (match parse_sequence rest b with
           | (Except.ok t, ts2, b2) => expr_collect (acc ++ [t]) ts2 b2
           | (Except.error e, ts2, b2) => (Except.error e, ts2, b2))
      | _ => (Except.ok acc, ts, b) := by
  rw [expr_collect.eq_def]
  split
  case _ rest =>
    split
    case _ t ts2 b2 heq =>
      have hp := parse_sequence_progress rest b (by rw [heq]; rfl)
      rw [heq] at hp
      simp at hp
      rw [dif_pos (by simp [tokSize]; omega)]
    case _ e ts2 b2 heq => rfl
  case _ => rfl

/-- The size guard inside `parse_expression` is transparent. -/
theorem parse_expression_eq (ts : List Tok) (b : Bool) :
    parse_expression ts b =
      match parse_sequence ts b with
      | (Except.error e, ts1, b1) => (Except.error e, ts1, b1)
      | (Except.ok t, ts1, b1) =>
          match expr_collect [t] ts1 b1 with
          | (Except.error e, ts2, b2) => (Except.error e, ts2, b2)
          | (Except.ok l, ts2, b2) =>
              match l with
              | [] => (Except.ok ParseTree.empty, ts2, b2)
              | [x] => (Except.ok x, ts2, b2)
              | _ => (Except.ok (ParseTree.choice l), ts2, b2) := by
  rw [parse_expression.eq_def]
  split
  case _ e ts1 b1 heq => rfl
  case _ t ts1 b1 heq =>
    have hng := ng_sequence ts b
    rw [heq] at hng
    simp at hng
    rw [dif_pos hng]

/-- The size guard inside `defs_collect` is transparent. -/
theorem defs_collect_eq (acc : List ParseTree) (ts : List Tok) (b : Bool) :
    defs_collect acc ts b =
      if ts.isEmpty then (Except.ok acc, ts, b)
      else
        match parse_definition ts b with
        | (Except.ok d, ts2, b2) => defs_collect (acc ++ [d]) ts2 b2
        | (Except.error e, ts2, b2) => (Except.error e, ts2, b2) := by
  rw [defs_collect.eq_def]
  split
  · rfl
  · split
    case _ d ts2 b2 heq =>
      have hp := parse_definition_progress ts b (by rw [heq]; rfl)
      rw [heq] at hp
      simp at hp
      rw [dif_pos hp]
    case _ e ts2 b2 heq => rfl

@[simp] theorem invListB_nil : invListB [] = true := by
  rw [invListB]

@[simp] theorem invListB_cons (t : ParseTree) (l : List ParseTree) :
    invListB (t :: l) = (invB t && invListB l) := by
  rw [invListB]

theorem invListB_append (l1 l2 : List ParseTree) :
    invListB (l1 ++ l2) = (invListB l1 && invListB l2) := by
  induction l1 with
  | nil => simp
  | cons t l ih => simp [ih, Bool.and_assoc]

@[simp] theorem invB_postWrap (p : Option PostfixOp) (t : ParseTree) :
    invB (postWrap p t) = invB t := by
  cases p with
  | none => rfl
  | some q => cases q <;> simp [postWrap, invB]

@[simp] theorem invB_preWrap (p : Option PrefixOp) (t : ParseTree) :
    invB (preWrap p t) = invB t := by
  cases p with
  | none => rfl
  | some q => cases q <;> simp [preWrap, invB]

/-- A successful `expr_collect` only appends to its accumulator. -/
theorem expr_collect_ok_prefix (N : Nat) : ∀ ts : List Tok, toksSize ts ≤ N →
    ∀ (b : Bool) (acc l : List ParseTree) (ts' : List Tok) (b' : Bool),
    expr_collect acc ts b = (Except.ok l, ts', b') → ∃ tl, l = acc ++ tl := by
  induction N using Nat.strong_induction_on with
  | _ N IH =>
  intro ts hts b acc l ts' b' h
  rw [expr_collect.eq_def] at h
  split at h
  case _ rest =>
    split at h
    case _ t ts2 b2 heq =>
      split at h
      case _ hlt =>
        simp [tokSize] at hlt
        have hts2 : toksSize ts2 < N := by
          simp [tokSize] at hts
          omega
        obtain ⟨tl, htl⟩ := IH (toksSize ts2) hts2 ts2 le_rfl b2 (acc ++ [t]) l ts' b' h
        exact ⟨[t] ++ tl, by simp [htl]⟩
      case _ =>
        simp at h
        exact ⟨[t], by simp [h]⟩
    case _ e ts2 b2 heq => simp at h
  case _ =>
    simp at h
    exact ⟨[], by simp [h]⟩

/-- A successful `defs_collect` only appends to its accumulator. -/
theorem defs_collect_ok_prefix (N : Nat) : ∀ ts : List Tok, toksSize ts ≤ N →
    ∀ (b : Bool) (acc l : List ParseTree) (ts' : List Tok) (b' : Bool),
    defs_collect acc ts b = (Except.ok l, ts', b') → ∃ tl, l = acc ++ tl := by
  induction N using Nat.strong_induction_on with
  | _ N IH =>
  intro ts hts b acc l ts' b' h
  rw [defs_collect.eq_def] at h
  split at h
  · simp at h
    exact ⟨[], by simp [h]⟩
  · split at h
    case _ d ts2 b2 heq =>
      split at h
      case _ hlt =>
        have hts2 : toksSize ts2 < N := by omega
        obtain ⟨tl, htl⟩ := IH (toksSize ts2) hts2 ts2 le_rfl b2 (acc ++ [d]) l ts' b' h
        exact ⟨[d] ++ tl, by simp [htl]⟩
      case _ =>
        simp at h
        exact ⟨[d], by simp [h]⟩
    case _ e ts2 b2 heq => simp at h

theorem inv_all (N : Nat) : ∀ ts : List Tok, toksSize ts ≤ N → ∀ b : Bool,
    (∀ t ts' b', parse_definition ts b = (Except.ok t, ts', b') → invB t = true) ∧
    (∀ pre t ts' b', parse_element_core pre ts b = (Except.ok t, ts', b') → invB t = true) ∧
    (∀ t ts' b', parse_element ts b = (Except.ok t, ts', b') → invB t = true) ∧
    (∀ acc, invListB acc = true → invListB (seq_collect acc ts b).1 = true) ∧
    (∀ t ts' b', parse_sequence ts b = (Except.ok t, ts', b') → invB t = true) ∧
    (∀ acc l ts' b', invListB acc = true →
      expr_collect acc ts b = (Except.ok l, ts', b') → invListB l = true) ∧
    (∀ t ts' b', parse_expression ts b = (Except.ok t, ts', b') → invB t = true) := by
  induction N using Nat.strong_induction_on with
  | _ N IH =>
  have Adef : ∀ us, toksSize us ≤ N → ∀ (b : Bool) t ts' b',
      parse_definition us b = (Except.ok t, ts', b') → invB t = true := by
    intro us hus b t ts' b' h
    rw [parse_definition.eq_def] at h
    split at h
    case _ nm r1 =>
      split at h
      case _ r2 =>
        split at h
        case _ ty r3 =>
          split at h
          case _ r4 =>
            have hr4 : toksSize r4 < N := by
              simp [tokSize] at hus; omega
            split at h
            case _ body ts4 b4 heq =>
              have hb := (IH (toksSize r4) hr4 r4 le_rfl b).2.2.2.2.2.2 body ts4 b4 heq
              simp at h
              rw [← h.1, invB]
              exact hb
            case _ e ts4 b4 heq => simp at h
          case _ => simp at h
        case _ => simp at h
      case _ r4 =>
        have hr4 : toksSize r4 < N := by
          simp [tokSize] at hus; omega
        split at h
        case _ body ts4 b4 heq =>
          have hb := (IH (toksSize r4) hr4 r4 le_rfl b).2.2.2.2.2.2 body ts4 b4 heq
          simp at h
          rw [← h.1, invB]
          exact hb
        case _ e ts4 b4 heq => simp at h
      case _ => simp at h
    case _ => simp at h
  have Acore : ∀ us, toksSize us ≤ N → ∀ (b : Bool) pre t ts' b',
      parse_element_core pre us b = (Except.ok t, ts', b') → invB t = true := by
    intro us hus b pre t ts' b' h
    rw [parse_element_core.eq_def] at h
    split at h
    case _ i rest =>
      split at h
      · simp at h
      · unfold finishElement at h
        simp at h
        rw [← h.1]
        simp [invB]
    case _ rest =>
      split at h
      case _ i rest2 =>
        unfold finishElement at h
        simp at h
        rw [← h.1]
        simp [invB]
      case _ => simp at h
    case _ str rest =>
      unfold finishElement at h
      simp at h
      rw [← h.1]
      simp [invB]
    case _ content rest =>
      split at h
      case _ tinner leftover b2 heq =>
        have hcontent : toksSize content < N := by
          simp [tokSize] at hus; omega
        have hb := (IH (toksSize content) hcontent content le_rfl b).2.2.2.2.2.2
          tinner leftover b2 heq
        unfold finishElement at h
        simp at h
        rw [← h.1]
        simpa using hb
      case _ e leftover b2 heq => simp at h
    case _ i rest2 =>
      split at h
      case _ inner ts2 b2 heq =>
        have hrest2 : toksSize rest2 < N := by
          simp [tokSize] at hus; omega
        have hb := (IH (toksSize rest2) hrest2 rest2 le_rfl b).2.2.1 inner ts2 b2 heq
        split at h
        case _ rest3 =>
          unfold finishElement at h
          simp at h
          rw [← h.1]
          simp [invB]
          exact hb
        case _ => simp at h
      case _ e ts2 b2 heq => simp at h
    case _ rest hno =>
      split at h
      case _ inner ts2 b2 heq =>
        have hrest : toksSize rest < N := by
          simp [tokSize] at hus; omega
        have hb := (IH (toksSize rest) hrest rest le_rfl b).2.2.1 inner ts2 b2 heq
        split at h
        case _ rest3 =>
          unfold finishElement at h
          simp at h
          rw [← h.1]
          simp [invB]
          exact hb
        case _ => simp at h
      case _ e ts2 b2 heq => simp at h
    case _ => simp at h
  have Aelem : ∀ us, toksSize us ≤ N → ∀ (b : Bool) t ts' b',
      parse_element us b = (Except.ok t, ts', b') → invB t = true := by
    intro us hus b t ts' b' h
    unfold parse_element at h
    exact Acore (parse_prefix_op us).2 (le_trans (parse_prefix_op_size us) hus) b
      (parse_prefix_op us).1 t ts' b' h
  have Aseqc : ∀ us, toksSize us ≤ N → ∀ (b : Bool) acc, invListB acc = true →
      invListB (seq_collect acc us b).1 = true := by
    intro us hus b acc hacc
    rw [seq_collect_eq]
    split
    · simpa using hacc
    · split
      case _ e ts2 b2 heq =>
        have he := Aelem us hus b e ts2 b2 heq
        have hp := parse_element_progress us b (by rw [heq]; rfl)
        rw [heq] at hp
        simp at hp
        have hts2 : toksSize ts2 < N := by omega
        have hrec := (IH (toksSize ts2) hts2 ts2 le_rfl b2).2.2.2.1 (acc ++ [e])
          (by simp [invListB_append, hacc, he])
        exact hrec
      case _ e ts2 b2 heq => simpa using hacc
  have Aseq : ∀ us, toksSize us ≤ N → ∀ (b : Bool) t ts' b',
      parse_sequence us b = (Except.ok t, ts', b') → invB t = true := by
    intro us hus b t ts' b' h
    rw [parse_sequence.eq_def] at h
    split at h
    case _ elems ts1 b1 heq0 =>
    have hinv := Aseqc us hus b [] (by simp)
    rw [heq0] at hinv
    simp at hinv
    split at h
    · simp at h
    case _ hemp =>
      simp at hemp
      split at h
      case _ rest =>
        split at h
        case _ code rest2 =>
          simp at h
          rw [← h.1, invB]
          simp [hinv, hemp]
        case _ => simp at h
      case _ =>
        simp at h
        rw [← h.1, invB]
        simp [hinv, hemp]
  have Aexprc : ∀ us, toksSize us ≤ N → ∀ (b : Bool) acc l ts' b',
      invListB acc = true → expr_collect acc us b = (Except.ok l, ts', b') →
      invListB l = true := by
    intro us hus b acc l ts' b' hacc h
    rw [expr_collect_eq] at h
    split at h
    case _ rest =>
      have hrest : toksSize rest < N := by
        simp [tokSize] at hus; omega
      split at h
      case _ t ts2 b2 heq =>
        have ht := Aseq rest (by omega) b t ts2 b2 heq
        have hng := ng_sequence rest b
        rw [heq] at hng
        simp at hng
        have hts2 : toksSize ts2 < N := by omega
        exact (IH (toksSize ts2) hts2 ts2 le_rfl b2).2.2.2.2.2.1 (acc ++ [t]) l ts' b'
          (by simp [invListB_append, hacc, ht]) h
      case _ e ts2 b2 heq => simp at h
    case _ =>
      simp at h
      rw [← h.1]
      exact hacc
  have Aexpr : ∀ us, toksSize us ≤ N → ∀ (b : Bool) t ts' b',
      parse_expression us b = (Except.ok t, ts', b') → invB t = true := by
    intro us hus b t ts' b' h
    rw [parse_expression_eq] at h
    split at h
    case _ e ts1 b1 heq => simp at h
    case _ t1 ts1 b1 heq =>
      have ht1 := Aseq us hus b t1 ts1 b1 heq
      have hng := ng_sequence us b
      rw [heq] at hng
      simp at hng
      split at h
      case _ e ts2 b2 heq2 => simp at h
      case _ l ts2 b2 heq2 =>
        have hl := Aexprc ts1 (le_trans hng hus) b1 [t1] l ts2 b2 (by simp [ht1]) heq2
        obtain ⟨tl, htl⟩ :=
          expr_collect_ok_prefix (toksSize ts1) ts1 le_rfl b1 [t1] l ts2 b2 heq2
        subst htl
        cases tl with
        | nil =>
          simp at h hl
          rw [← h.1]
          exact hl
        | cons th tt =>
          simp at h hl
          rw [← h.1, invB]
          simp [hl]
  intro ts hts b
  exact ⟨Adef ts hts b, fun pre => Acore ts hts b pre, Aelem ts hts b,
    fun acc => Aseqc ts hts b acc, Aseq ts hts b,
    fun acc => Aexprc ts hts b acc, Aexpr ts hts b⟩


theorem inv_definition (ts : List Tok) (b : Bool) (t : ParseTree)
    (ts' : List Tok) (b' : Bool)
    (h : parse_definition ts b = (Except.ok t, ts', b')) : invB t = true :=
  (inv_all (toksSize ts) ts le_rfl b).1 t ts' b' h

theorem inv_sequence (ts : List Tok) (b : Bool) (t : ParseTree)
    (ts' : List Tok) (b' : Bool)
    (h : parse_sequence ts b = (Except.ok t, ts', b')) : invB t = true :=
  (inv_all (toksSize ts) ts le_rfl b).2.2.2.2.1 t ts' b' h

/-- A successful `defs_collect` preserves the list invariant. -/
theorem defs_collect_inv (N : Nat) : ∀ ts : List Tok, toksSize ts ≤ N →
    ∀ (b : Bool) (acc l : List ParseTree) (ts' : List Tok) (b' : Bool),
    invListB acc = true → defs_collect acc ts b = (Except.ok l, ts', b') →
    invListB l = true := by
  induction N using Nat.strong_induction_on with
  | _ N IH =>
  intro ts hts b acc l ts' b' hacc h
  rw [defs_collect.eq_def] at h
  split at h
  · simp at h
    rw [← h.1]
    exact hacc
  · split at h
    case _ d ts2 b2 heq =>
      have hd := inv_definition ts b d ts2 b2 heq
      split at h
      case _ hlt =>
        exact IH (toksSize ts2) (by omega) ts2 le_rfl b2 (acc ++ [d]) l ts' b'
          (by simp [invListB_append, hacc, hd]) h
      case _ =>
        simp at h
        rw [← h.1]
        simp [invListB_append, hacc, hd]
    case _ e ts2 b2 heq => simp at h

/-- Every successful `parse_sequence` returns a `sequence` node with a
non-empty element list. -/
theorem parse_sequence_shape (ts : List Tok) (b : Bool) (t : ParseTree)
    (ts' : List Tok) (b' : Bool)
    (h : parse_sequence ts b = (Except.ok t, ts', b')) :
    ∃ es act, t = ParseTree.sequence es act ∧ es ≠ [] := by
  rw [parse_sequence.eq_def] at h
  split at h
  case _ elems ts1 b1 heq0 =>
  split at h
  · simp at h
  case _ hemp =>
    simp at hemp
    split at h
    case _ rest =>
      split at h
      case _ code rest2 =>
        simp at h
        exact ⟨elems, some code, h.1.symm, hemp⟩
      case _ => simp at h
    case _ =>
      simp at h
      exact ⟨elems, none, h.1.symm, hemp⟩

/-- Claim C1, as stated, is false on the code: the speculative parse is a
full `parse_definition` (header *and* body), not just the header
`IDENT (':' TYPE)? '='`.  At `b =` (header matches, body missing) the
element parse succeeds and consumes the identifier instead of failing. -/
theorem claim_C1_counterexample :
    specHeaderOnly [Tok.ident "b", Tok.eq] = true ∧
    parse_element [Tok.ident "b", Tok.eq] false =
      (Except.ok (ParseTree.nonTerminal "b"), [Tok.eq], false) := by
  constructor
  · rfl
  · simp [parse_element, parse_element_core, parse_definition, parse_expression,
      parse_sequence, seq_collect, expr_collect, finishElement, preWrap, postWrap,
      parse_prefix_op, parse_postfix_op, tokSize]

/-- Claim C1 (amended): when the element parser meets an identifier, it
fails (with the new-definition signal) if and only if a speculative parse
of a FULL rule definition — header and complete expression body — succeeds
on the throwaway cursor; when that speculation fails the identifier is
consumed and the element is built from `NonTerminal` of it. -/
theorem claim_C1 (b : Bool) (i : String) (rest : List Tok) :
    (((parse_element (Tok.ident i :: rest) b).1.isOk = false) ↔
      (parse_definition (Tok.ident i :: rest) b).1.isOk = true) ∧
    ((parse_definition (Tok.ident i :: rest) b).1.isOk = false →
      parse_element (Tok.ident i :: rest) b =
        finishElement none (ParseTree.nonTerminal i) rest b) := by
  have hcore : parse_element (Tok.ident i :: rest) b =
      parse_element_core none (Tok.ident i :: rest) b := by
    simp [parse_element, parse_prefix_op]
  constructor
  · rw [hcore, parse_element_core.eq_def]
    by_cases hd : (parse_definition (Tok.ident i :: rest) b).1.isOk = true
    · simp [hd]
    · simp at hd
      simp [hd, finishElement]
  · intro hd
    rw [hcore, parse_element_core.eq_def]
    simp [hd]

/-- Witness for C1 at the concrete input `b` (speculation fails: no `=`),
with the hypothesis of the second conjunct discharged. -/
theorem claim_C1_witness :
    (((parse_element [Tok.ident "b"] false).1.isOk = false) ↔
      (parse_definition [Tok.ident "b"] false).1.isOk = true) ∧
    parse_element [Tok.ident "b"] false =
      finishElement none (ParseTree.nonTerminal "b") [] false := by
  have h := claim_C1 false "b" []
  exact ⟨h.1, h.2 (by simp [parse_definition])⟩

/-- Claim C2, as stated, is false on the code: `parse_sequence`'s element
loop breaks on *every* element error (`Err(_) => break`).  Here an
unterminated capture `<y` — a genuine hard failure — is swallowed: the
whole grammar `a = x <y` parses successfully (its tokens silently
consumed) instead of propagating the error. -/
theorem claim_C2_counterexample :
    parseGrammar [Tok.ident "a", Tok.eq, Tok.ident "x", Tok.lt, Tok.ident "y"] =
      Except.ok (ParseTree.definitionList
        [ParseTree.parserDefinition "a" none
          (ParseTree.sequence [ParseTree.nonTerminal "x"] none)]) := by
  simp [parseGrammar, ParseTree.parse, parse_definition, parse_expression,
    expr_collect, parse_sequence, seq_collect, parse_element,
    parse_element_core, finishElement, preWrap, postWrap, parse_prefix_op,
    parse_postfix_op, defs_collect, tokSize]

/-- Claim C2 (amended): no element-level error, hard or intentional, ever
propagates out of the sequence parser; the element loop swallows them all
(the tokens the failed element consumed stay consumed), and
`parse_sequence` itself can only fail with its own empty-sequence error or
its missing-action-block error. -/
theorem claim_C2 (ts : List Tok) (b : Bool) (e : PError)
    (ts' : List Tok) (b' : Bool)
    (h : parse_sequence ts b = (Except.error e, ts', b')) :
    e = PError.mk "Need at least one element in a sequence" ∨
    e = PError.mk "expected block" := by
  rw [parse_sequence.eq_def] at h
  split at h
  case _ elems ts1 b1 heq0 =>
  split at h
  · simp at h
    exact Or.inl h.1.symm
  case _ hemp =>
    split at h
    case _ rest =>
      split at h
      case _ code rest2 => simp at h
      case _ =>
        simp at h
        exact Or.inr h.1.symm
    case _ => simp at h

/-- Witness for C2 at the concrete failing input `[]` (empty stream:
zero elements collected). -/
theorem claim_C2_witness :
    PError.mk "Need at least one element in a sequence" =
      PError.mk "Need at least one element in a sequence" ∨
    PError.mk "Need at least one element in a sequence" =
      PError.mk "expected block" :=
  claim_C2 [] false (PError.mk "Need at least one element in a sequence") [] false
    (by simp [parse_sequence, seq_collect])

/-- Claim C3, as stated, is false on the code: in `&b = "y"` the prefix
token `&` is consumed by `parse_prefix` before the identifier is
recognised as a new definition, and it stays consumed when the element
parse fails — the cursor is at the identifier, not where the element parse
began. -/
theorem claim_C3_counterexample :
    parse_element [Tok.amp, Tok.ident "b", Tok.eq, Tok.litStr "y"] false =
      (Except.error (PError.mk "Reached start of new definition."),
       [Tok.ident "b", Tok.eq, Tok.litStr "y"], false) := by
  simp [parse_element, parse_element_core, parse_definition, parse_expression,
    parse_sequence, seq_collect, expr_collect, finishElement, preWrap, postWrap,
    parse_prefix_op, parse_postfix_op, tokSize]

/-- Claim C3 (amended): when the element parser fails because the upcoming
identifier starts a new definition, the identifier itself and any postfix
token are not consumed and the cursor rests exactly at the identifier —
but a prefix operator token consumed before the identifier remains
consumed. -/
theorem claim_C3 (ts : List Tok) (b : Bool) (pre : Option PrefixOp)
    (i : String) (rest : List Tok)
    (hpre : parse_prefix_op ts = (pre, Tok.ident i :: rest))
    (hdef : (parse_definition (Tok.ident i :: rest) b).1.isOk = true) :
    parse_element ts b =
      (Except.error (PError.mk "Reached start of new definition."),
       Tok.ident i :: rest, b) := by
  rw [parse_element.eq_def, hpre, parse_element_core.eq_def]
  simp [hdef, parse_postfix_op]

/-- Witness for C3 at `!c = "z"`: the element fails with the cursor at
`c`, the `!` consumed. -/
theorem claim_C3_witness :
    parse_element [Tok.bang, Tok.ident "c", Tok.eq, Tok.litStr "z"] false =
      (Except.error (PError.mk "Reached start of new definition."),
       [Tok.ident "c", Tok.eq, Tok.litStr "z"], false) :=
  claim_C3 _ false (some PrefixOp.not) "c" [Tok.eq, Tok.litStr "z"]
    (by simp [parse_prefix_op])
    (by simp [parse_definition, parse_expression, parse_sequence, seq_collect,
      expr_collect, parse_element, parse_element_core, finishElement, preWrap,
      postWrap, parse_prefix_op, parse_postfix_op, tokSize])

/-- Claim C4 (confirmed): the speculative lookahead influences the element
parser only through its success bit; whether it succeeds or fails, the
real parse continues from exactly the pre-speculation cursor — at the
identifier on failure-signalling, just past it on consumption — never
from any state the speculative `parse_definition` advanced through. -/
theorem claim_C4 (b : Bool) (i : String) (rest : List Tok) :
    parse_element (Tok.ident i :: rest) b =
      (if (parse_definition (Tok.ident i :: rest) b).1.isOk = true then
        (Except.error (PError.mk "Reached start of new definition."),
         Tok.ident i :: rest, b)
      else finishElement none (ParseTree.nonTerminal i) rest b) := by
  by_cases hd : (parse_definition (Tok.ident i :: rest) b).1.isOk = true
  · simp [parse_element, parse_prefix_op, parse_element_core, hd,
      parse_postfix_op]
  · simp at hd
    simp [parse_element, parse_prefix_op, parse_element_core, hd]

/-- Claim C5 (confirmed): operator wrapping is prefix(postfix(atom)), and a
postfix after a capture's `>` wraps the whole capture: `!a*`, `&a?` and
`<x: a>*` produce exactly the claimed trees. -/
theorem claim_C5 :
    parse_element [Tok.bang, Tok.ident "a", Tok.star] false =
      (Except.ok (ParseTree.not (ParseTree.many0 (ParseTree.nonTerminal "a"))),
       [], false) ∧
    parse_element [Tok.amp, Tok.ident "a", Tok.question] false =
      (Except.ok (ParseTree.peek (ParseTree.optional (ParseTree.nonTerminal "a"))),
       [], false) ∧
    parse_element [Tok.lt, Tok.ident "x", Tok.colon, Tok.ident "a", Tok.gt,
        Tok.star] false =
      (Except.ok (ParseTree.many0
        (ParseTree.capture (ParseTree.nonTerminal "a") (some "x"))),
       [], false) := by
  refine ⟨?_, ?_, ?_⟩ <;>
  simp [parse_element, parse_element_core, parse_definition, parse_expression,
    parse_sequence, seq_collect, expr_collect, finishElement, preWrap, postWrap,
    parse_prefix_op, parse_postfix_op, tokSize]

/-- Claim C6 (confirmed): a successful expression parse is either exactly
the single parsed sequence itself (a `sequence` node, no `Choice`
wrapper — the alternation loop contributed nothing), or a `Choice` whose
alternative list is exactly the collected sequences, in source order, with
at least two of them. -/
theorem claim_C6 (ts : List Tok) (b : Bool) (t : ParseTree)
    (ts' : List Tok) (b' : Bool)
    (h : parse_expression ts b = (Except.ok t, ts', b')) :
    (∃ ts1 b1, parse_sequence ts b = (Except.ok t, ts1, b1) ∧
       expr_collect [t] ts1 b1 = (Except.ok [t], ts', b') ∧
       ∃ es act, t = ParseTree.sequence es act ∧ es ≠ []) ∨
    (∃ t1 ts1 b1 l, parse_sequence ts b = (Except.ok t1, ts1, b1) ∧
       expr_collect [t1] ts1 b1 = (Except.ok l, ts', b') ∧
       2 ≤ l.length ∧ t = ParseTree.choice l) := by
  rw [parse_expression_eq] at h
  split at h
  case _ e ts1 b1 heq => simp at h
  case _ t1 ts1 b1 heq =>
    split at h
    case _ e ts2 b2 heq2 => simp at h
    case _ l ts2 b2 heq2 =>
      obtain ⟨tl, htl⟩ :=
        expr_collect_ok_prefix (toksSize ts1) ts1 le_rfl b1 [t1] l ts2 b2 heq2
      subst htl
      cases tl with
      | nil =>
        simp at h heq2
        obtain ⟨h1, h2, h3⟩ := h
        subst h1 h2 h3
        left
        exact ⟨ts1, b1, heq, heq2,
          parse_sequence_shape ts b t1 ts1 b1 heq⟩
      | cons th tt =>
        simp at h heq2
        obtain ⟨h1, h2, h3⟩ := h
        subst h2 h3
        right
        exact ⟨t1, ts1, b1, t1 :: th :: tt, heq, heq2, by simp, h1.symm⟩

/-- Witness for C6 at `"x" | "y"`: two sequences, a `Choice` of exactly
those two in source order. -/
theorem claim_C6_witness :
    (∃ ts1 b1, parse_sequence [Tok.litStr "x", Tok.pipe, Tok.litStr "y"] false =
       (Except.ok (ParseTree.choice
          [ParseTree.sequence [ParseTree.terminal "x"] none,
           ParseTree.sequence [ParseTree.terminal "y"] none]), ts1, b1) ∧
       expr_collect [ParseTree.choice
          [ParseTree.sequence [ParseTree.terminal "x"] none,
           ParseTree.sequence [ParseTree.terminal "y"] none]] ts1 b1 =
         (Except.ok [ParseTree.choice
          [ParseTree.sequence [ParseTree.terminal "x"] none,
           ParseTree.sequence [ParseTree.terminal "y"] none]], [], false) ∧
       ∃ es act, ParseTree.choice
          [ParseTree.sequence [ParseTree.terminal "x"] none,
           ParseTree.sequence [ParseTree.terminal "y"] none] =
         ParseTree.sequence es act ∧ es ≠ []) ∨
    (∃ t1 ts1 b1 l,
       parse_sequence [Tok.litStr "x", Tok.pipe, Tok.litStr "y"] false =
         (Except.ok t1, ts1, b1) ∧
       expr_collect [t1] ts1 b1 = (Except.ok l, [], false) ∧
       2 ≤ l.length ∧
       ParseTree.choice
          [ParseTree.sequence [ParseTree.terminal "x"] none,
           ParseTree.sequence [ParseTree.terminal "y"] none] =
         ParseTree.choice l) :=
  claim_C6 [Tok.litStr "x", Tok.pipe, Tok.litStr "y"] false
    (ParseTree.choice
      [ParseTree.sequence [ParseTree.terminal "x"] none,
       ParseTree.sequence [ParseTree.terminal "y"] none]) [] false
    (by simp [parse_expression, expr_collect, parse_sequence, seq_collect,
      parse_element, parse_element_core, parse_definition, finishElement,
      preWrap, postWrap, parse_prefix_op, parse_postfix_op, tokSize])

/-- Claim C7 (confirmed): every tree returned by a successful top-level
parse satisfies the structural invariants — every `sequence` non-empty,
every `choice` with at least two alternatives, the `definitionList`
non-empty, and no `empty` node anywhere. -/
theorem claim_C7 (ts : List Tok) (t : ParseTree)
    (h : parseGrammar ts = Except.ok t) : invB t = true := by
  unfold parseGrammar at h
  split at h
  case _ t0 ts1 b1 heq =>
    split at h
    case _ =>
      simp at h
      subst h
      unfold ParseTree.parse at heq
      split at heq
      case _ e ts1' b1' heqd => simp at heq
      case _ d ts1' b1' heqd =>
        split at heq
        case _ l ts2 b2 heqc =>
          simp at heq
          have hd := inv_definition ts false d ts1' b1' heqd
          have hl := defs_collect_inv (toksSize ts1') ts1' le_rfl b1' [d] l
            ts2 b2 (by simp [hd]) heqc
          obtain ⟨tl, htl⟩ := defs_collect_ok_prefix (toksSize ts1') ts1'
            le_rfl b1' [d] l ts2 b2 heqc
          rw [← heq.1, invB]
          simp [hl]
          rw [htl]
          simp
        case _ e ts2 b2 heqc => simp at heq
    case _ => simp at h
  case _ e heq => simp at h

/-- Witness for C7 at the single-rule grammar `a = "w"`. -/
theorem claim_C7_witness :
    invB (ParseTree.definitionList
      [ParseTree.parserDefinition "a" none
        (ParseTree.sequence [ParseTree.terminal "w"] none)]) = true :=
  claim_C7 [Tok.ident "a", Tok.eq, Tok.litStr "w"] _
    (by simp [parseGrammar, ParseTree.parse, parse_definition, parse_expression,
      expr_collect, parse_sequence, seq_collect, parse_element,
      parse_element_core, finishElement, preWrap, postWrap, parse_prefix_op,
      parse_postfix_op, defs_collect, tokSize])

/-- Claim C8 (confirmed): a sequence parse that collects zero elements is a
hard failure with the empty-sequence error, and in particular the
single-rule input `name = => { }` fails with exactly that error. -/
theorem claim_C8 :
    (∀ (ts : List Tok) (b : Bool), (seq_collect [] ts b).1 = [] →
      parse_sequence ts b =
        (Except.error (PError.mk "Need at least one element in a sequence"),
         (seq_collect [] ts b).2.1, (seq_collect [] ts b).2.2)) ∧
    parseGrammar [Tok.ident "name", Tok.eq, Tok.fatArrow, Tok.brace []] =
      Except.error (PError.mk "Need at least one element in a sequence") := by
  constructor
  · intro ts b hc
    rw [parse_sequence.eq_def]
    rcases hsc : seq_collect [] ts b with ⟨elems, ts1, b1⟩
    rw [hsc] at hc
    simp at hc
    subst hc
    simp
  · simp [parseGrammar, ParseTree.parse, parse_definition, parse_expression,
      expr_collect, parse_sequence, seq_collect, parse_element,
      parse_element_core, finishElement, preWrap, postWrap, parse_prefix_op,
      parse_postfix_op, defs_collect, tokSize]

/-- Witness for C8's universal part at the empty stream (zero elements
collected). -/
theorem claim_C8_witness :
    parse_sequence [] false =
      (Except.error (PError.mk "Need at least one element in a sequence"),
       [], false) := by
  have h := claim_C8.1 [] false (by simp [seq_collect])
  simpa [seq_collect] using h

/-- Claim C9 (confirmed): every single-rule grammar `name = "lit"` parses
to a `DefinitionList` of exactly one untyped `ParserDefinition` whose body
is the one-element `Sequence` of the `Terminal` with no action — the
`Sequence` wrapper retained at length 1. -/
theorem claim_C9 (n l : String) :
    parseGrammar [Tok.ident n, Tok.eq, Tok.litStr l] =
      Except.ok (ParseTree.definitionList
        [ParseTree.parserDefinition n none
          (ParseTree.sequence [ParseTree.terminal l] none)]) := by
  simp [parseGrammar, ParseTree.parse, parse_definition, parse_expression,
    expr_collect, parse_sequence, seq_collect, parse_element,
    parse_element_core, finishElement, preWrap, postWrap, parse_prefix_op,
    parse_postfix_op, defs_collect, tokSize]

/-- Claim C10, as stated, is false on the code in one respect: the second
consecutive postfix token is NOT left unconsumed.  In `a??` the loop's
second element attempt fails, but `parse_postfix` still runs inside the
failing call and consumes the stray `?`: the loop ends with the final
cursor past it (here `[]`, not `[?]`), and no nested node is built. -/
theorem claim_C10_counterexample :
    seq_collect [] [Tok.ident "a", Tok.question, Tok.question] false =
      ([ParseTree.optional (ParseTree.nonTerminal "a")], [], false) := by
  simp [seq_collect, parse_element, parse_element_core, parse_definition,
    parse_expression, parse_sequence, expr_collect, finishElement, preWrap,
    postWrap, parse_prefix_op, parse_postfix_op, tokSize]

/-- Claim C10 (amended): an element folds at most one postfix operator —
`atom p1 p2` parses as the single wrap `p1` around the atom, leaving `p2`
for the next element attempt, which fails (ending the sequence loop) while
consuming and discarding that second operator token; no nested
repetition/optional nodes arise from adjacent postfix tokens on one
atom. -/
theorem claim_C10 (b : Bool) (a : String) (p1 p2 : Tok) (rest : List Tok)
    (h1 : isPostfixTok p1 = true) (h2 : isPostfixTok p2 = true) :
    parse_element (Tok.ident a :: p1 :: p2 :: rest) b =
      (Except.ok (postWrapTok p1 (ParseTree.nonTerminal a)), p2 :: rest, b) ∧
    parse_element (p2 :: rest) b =
      (Except.error (PError.mk "expected element"), rest, b) := by
  cases p1 <;> simp [isPostfixTok] at h1 <;>
  cases p2 <;> simp [isPostfixTok] at h2 <;>
  constructor <;>
  simp [parse_element, parse_element_core, parse_definition, postWrapTok,
    finishElement, preWrap, postWrap, parse_prefix_op, parse_postfix_op,
    tokSize]

/-- Witness for C10 at `a ? *`: one `Optional` wrap, the `*` consumed and
discarded by the failing second element. -/
theorem claim_C10_witness :
    parse_element [Tok.ident "a", Tok.question, Tok.star] false =
      (Except.ok (ParseTree.optional (ParseTree.nonTerminal "a")),
       [Tok.star], false) ∧
    parse_element [Tok.star] false =
      (Except.error (PError.mk "expected element"), [], false) := by
  have h := claim_C10 false "a" Tok.question Tok.star [] (by rfl) (by rfl)
  simpa [postWrapTok] using h
